import Mathlib

/-!
Verification of the VIX-central contango downloader (`process_contango.py`).

The script fetches an HTML table of historical VIX futures contango data,
promotes the first row to a header, drops the first (duplicate header) and
last (footer) rows, parses the `Date` column, sorts by date, converts three
percentage-string columns to fractions, replaces `-` cells by NaN and
coerces every remaining column to float, and finally writes a CSV.

This file gives a shallow embedding of that pipeline: cells are strings,
numbers are exact rationals (the embedding of Python floats), NaN is `none`
in `Option ℚ`, exceptions are `Except String`, and the file system is an
explicit map from paths to file contents.
-/

namespace VixContango

/-! ## Characters and digits -/

/-- The decimal digit character for `d < 10` (embedding of Python's decimal
digit printing). -/
def charOfDigit (d : ℕ) : Char := Char.ofNat (48 + d)

/-- The numeric value of a decimal digit character, `none` for non-digits. -/
def digitVal (c : Char) : Option ℕ :=
  if 48 ≤ c.toNat ∧ c.toNat ≤ 57 then some (c.toNat - 48) else none

/-- Parse a list of characters as decimal digits; `none` if any is not a digit. -/
def digitsVal : List Char → Option (List ℕ)
  | [] => some []
  | c :: cs =>
    match digitVal c, digitsVal cs with
    | some d, some ds => some (d :: ds)
    | _, _ => none

/-- The natural number denoted by a most-significant-first digit list. -/
def natOfDigitsM (l : List ℕ) : ℕ := l.foldl (fun a d => 10 * a + d) 0

theorem digitVal_charOfDigit {d : ℕ} (h : d < 10) :
    digitVal (charOfDigit d) = some d := by
  interval_cases d <;> decide

theorem digitsVal_map_charOfDigit {l : List ℕ} (h : ∀ d ∈ l, d < 10) :
    digitsVal (l.map charOfDigit) = some l := by
  induction l with
  | nil => rfl
  | cons d ds ih =>
    have hd : d < 10 := h d (List.mem_cons_self _ _)
    have ht := ih (fun x hx => h x (List.mem_cons_of_mem _ hx))
    simp only [List.map_cons, digitsVal, digitVal_charOfDigit hd, ht]

theorem natOfDigitsM_append (l : List ℕ) (x : ℕ) :
    natOfDigitsM (l ++ [x]) = 10 * natOfDigitsM l + x := by
  simp [natOfDigitsM, List.foldl_append]

theorem natOfDigitsM_reverse (l : List ℕ) :
    natOfDigitsM l.reverse = Nat.ofDigits 10 l := by
  induction l with
  | nil => rfl
  | cons d ds ih =>
    simp [List.reverse_cons, natOfDigitsM_append, ih, Nat.ofDigits_cons]
    ring

/-- Little-endian decimal digits computed with explicit fuel, so that the
kernel can evaluate it (unlike `Nat.digits`, which is well-founded recursion). -/
def digitsRevAux : ℕ → ℕ → List ℕ
  | 0, _ => []
  | fuel + 1, n => if n = 0 then [] else n % 10 :: digitsRevAux fuel (n / 10)

/-- Little-endian decimal digits of `n`. -/
def decDigits (n : ℕ) : List ℕ := digitsRevAux n n

theorem digitsRevAux_eq_digits : ∀ fuel n, n ≤ fuel → digitsRevAux fuel n = Nat.digits 10 n := by
  intro fuel
  induction fuel with
  | zero => intro n hn; interval_cases n; simp [digitsRevAux]
  | succ f ih =>
    intro n hn
    rcases Nat.eq_zero_or_pos n with h0 | hpos
    · subst h0; simp [digitsRevAux]
    · rw [digitsRevAux, if_neg (by omega), Nat.digits_def' (by norm_num : 1 < 10) hpos,
        ih (n / 10) (by omega)]

theorem decDigits_eq (n : ℕ) : decDigits n = Nat.digits 10 n :=
  digitsRevAux_eq_digits n n le_rfl

/-- Decimal digits of a natural number, most significant first, `[0]` for `0`. -/
def natDigitsM (n : ℕ) : List ℕ :=
  if n = 0 then [0] else (decDigits n).reverse

/-- Decimal digit characters of a natural number, most significant first
(Python's `str` of a nonnegative integer). -/
def natChars (n : ℕ) : List Char := (natDigitsM n).map charOfDigit

/-- Decimal digits of `m`, most significant first, zero-padded on the left to
width `k`. -/
def padDigitsM (k m : ℕ) : List ℕ :=
  (decDigits m ++ List.replicate (k - (decDigits m).length) 0).reverse

/-- Decimal digit characters of `m`, zero-padded on the left to width `k`. -/
def padChars (k m : ℕ) : List Char := (padDigitsM k m).map charOfDigit

theorem natDigitsM_lt (n : ℕ) : ∀ d ∈ natDigitsM n, d < 10 := by
  intro d hd
  unfold natDigitsM at hd
  rw [decDigits_eq] at hd
  split at hd
  · simp at hd; omega
  · exact Nat.digits_lt_base (by norm_num) (List.mem_reverse.mp hd)

theorem padDigitsM_lt (k m : ℕ) : ∀ d ∈ padDigitsM k m, d < 10 := by
  intro d hd
  unfold padDigitsM at hd
  rw [decDigits_eq] at hd
  rcases List.mem_append.mp (List.mem_reverse.mp hd) with h | h
  · exact Nat.digits_lt_base (by norm_num) h
  · have := List.eq_of_mem_replicate h; omega

theorem natOfDigitsM_natDigitsM (n : ℕ) : natOfDigitsM (natDigitsM n) = n := by
  unfold natDigitsM
  rw [decDigits_eq]
  split
  · simp [natOfDigitsM]; omega
  · rw [natOfDigitsM_reverse, Nat.ofDigits_digits]

theorem natOfDigitsM_padDigitsM (k m : ℕ) : natOfDigitsM (padDigitsM k m) = m := by
  unfold padDigitsM
  rw [decDigits_eq, natOfDigitsM_reverse, Nat.ofDigits_append]
  have hz : Nat.ofDigits 10 (List.replicate (k - (Nat.digits 10 m).length) 0) = 0 := by
    induction (k - (Nat.digits 10 m).length) with
    | zero => rfl
    | succ j ih => simp [List.replicate_succ, Nat.ofDigits_cons, ih]
  rw [hz, Nat.ofDigits_digits]
  ring

theorem padDigitsM_length {k m : ℕ} (h : m < 10 ^ k) : (padDigitsM k m).length = k := by
  have hlen : (Nat.digits 10 m).length ≤ k := by
    rcases Nat.eq_zero_or_pos m with hm | hm
    · subst hm; simp
    · calc (Nat.digits 10 m).length = Nat.log 10 m + 1 := Nat.digits_len 10 m (by norm_num) (by omega)
        _ ≤ k := by
            have := Nat.log_lt_of_lt_pow (by omega : m ≠ 0) h
            omega
  simp [padDigitsM, decDigits_eq]
  omega

/-! ## Float parsing

Embedding of Python's `float(str)` (as invoked by pandas `.astype(float)`)
on the decimal literals this pipeline deals with: an optional sign, an
integer part and an optional fractional part.  Values are exact rationals.
-/

/-- Split a character list at the first `'.'`: the part before it, and
(`some`) the part after it when a dot is present. -/
def splitDot : List Char → List Char × Option (List Char)
  | [] => ([], none)
  | c :: cs =>
    if c = '.' then ([], some cs)
    else (c :: (splitDot cs).1, (splitDot cs).2)

/-- Interpret the two parts of a split literal: the digits before the dot,
and (when a dot was present) the digits after it. -/
def parseParts (ip : List Char) : Option (List Char) → Option ℚ
  | none =>
    if ip = [] then none
    else (digitsVal ip).map (fun ds => (natOfDigitsM ds : ℚ))
  | some fp =>
    if ip = [] ∧ fp = [] then none
    else
      match digitsVal ip, digitsVal fp with
      | some ds, some fs =>
        some ((natOfDigitsM ds : ℚ) + (natOfDigitsM fs : ℚ) / (10 : ℚ) ^ fp.length)
      | _, _ => none

/-- Parse an unsigned decimal literal `digits[.digits]` (at least one digit
somewhere) as an exact rational. -/
def parseUnsigned (l : List Char) : Option ℚ :=
  parseParts (splitDot l).1 (splitDot l).2

/-- Parse a signed decimal literal as an exact rational; `none` when the text
is not a number (the embedding of `float(s)` raising `ValueError`). -/
def parseFloatChars : List Char → Option ℚ
  | [] => none
  | c :: rest =>
    if c = '-' then (parseUnsigned rest).map (fun q => -q)
    else if c = '+' then parseUnsigned rest
    else parseUnsigned (c :: rest)

/-- `float()` on a Lean string. -/
def parseFloat (s : String) : Option ℚ := parseFloatChars s.toList

example : parseFloat "12.3" = some (123 / 10) := by
  simp [parseFloat, parseFloatChars, parseUnsigned, parseParts, splitDot, digitsVal,
    digitVal, natOfDigitsM, String.toList]
  norm_num
example : parseFloat "-" = none := by decide
example : parseFloat "" = none := by decide
example : parseFloat "-0.5" = some (-(1 / 2)) := by
  simp [parseFloat, parseFloatChars, parseUnsigned, parseParts, splitDot, digitsVal,
    digitVal, natOfDigitsM, String.toList]
  norm_num
example : parseFloat "12" = some 12 := by
  simp [parseFloat, parseFloatChars, parseUnsigned, parseParts, splitDot, digitsVal,
    digitVal, natOfDigitsM, String.toList]
example : parseFloat "1.2.3" = none := by decide
example : parseFloat "1." = some 1 := by
  simp [parseFloat, parseFloatChars, parseUnsigned, parseParts, splitDot, digitsVal,
    digitVal, natOfDigitsM, String.toList]
example : parseFloat "." = none := by decide
example : parseFloat "007" = some 7 := by
  simp [parseFloat, parseFloatChars, parseUnsigned, parseParts, splitDot, digitsVal,
    digitVal, natOfDigitsM, String.toList]

theorem foldl_digit_init (l : List ℕ) : ∀ i : ℕ,
    List.foldl (fun a d => 10 * a + d) i l = i * 10 ^ l.length + natOfDigitsM l := by
  induction l with
  | nil => intro i; simp [natOfDigitsM]
  | cons d ds ih =>
    intro i
    have h1 := ih (10 * i + d)
    have h2 := ih (10 * 0 + d)
    simp only [List.foldl_cons, natOfDigitsM] at *
    rw [h1, h2]
    simp only [List.length_cons]
    ring

theorem natOfDigitsM_cons (d : ℕ) (l : List ℕ) :
    natOfDigitsM (d :: l) = d * 10 ^ l.length + natOfDigitsM l := by
  have h := foldl_digit_init l (10 * 0 + d)
  simp only [natOfDigitsM, List.foldl_cons] at h ⊢
  rw [h]
  ring

theorem natOfDigitsM_lt_pow {l : List ℕ} (h : ∀ d ∈ l, d < 10) :
    natOfDigitsM l < 10 ^ l.length := by
  induction l with
  | nil => simp [natOfDigitsM]
  | cons d ds ih =>
    have hd : d < 10 := h d (List.mem_cons_self _ _)
    have ht := ih (fun x hx => h x (List.mem_cons_of_mem _ hx))
    rw [natOfDigitsM_cons, List.length_cons, pow_succ]
    calc d * 10 ^ ds.length + natOfDigitsM ds
        ≤ 9 * 10 ^ ds.length + (10 ^ ds.length - 1) := by
          have h1 : 10 ^ ds.length ≥ 1 := Nat.one_le_pow _ _ (by norm_num)
          have := Nat.mul_le_mul_right (10 ^ ds.length) (by omega : d ≤ 9)
          omega
      _ < 10 ^ ds.length * 10 := by
          have h1 : 10 ^ ds.length ≥ 1 := Nat.one_le_pow _ _ (by norm_num)
          omega

theorem digit_list_unique : ∀ (l₁ l₂ : List ℕ), l₁.length = l₂.length →
    (∀ d ∈ l₁, d < 10) → (∀ d ∈ l₂, d < 10) →
    natOfDigitsM l₁ = natOfDigitsM l₂ → l₁ = l₂ := by
  intro l₁
  induction l₁ with
  | nil => intro l₂ hlen _ _ _; exact (List.eq_nil_of_length_eq_zero hlen.symm).symm
  | cons a l ih =>
    intro l₂ hlen h₁ h₂ hval
    cases l₂ with
    | nil => simp at hlen
    | cons b t =>
      have hlt : l.length = t.length := by simpa using hlen
      rw [natOfDigitsM_cons, natOfDigitsM_cons, hlt] at hval
      have hl : natOfDigitsM l < 10 ^ t.length := by
        rw [← hlt]; exact natOfDigitsM_lt_pow (fun x hx => h₁ x (List.mem_cons_of_mem _ hx))
      have ht : natOfDigitsM t < 10 ^ t.length :=
        natOfDigitsM_lt_pow (fun x hx => h₂ x (List.mem_cons_of_mem _ hx))
      have hab : a = b := by
        by_contra hne
        rcases Nat.lt_or_ge a b with h | h
        · have h1 : (a + 1) * 10 ^ t.length ≤ b * 10 ^ t.length :=
            Nat.mul_le_mul_right _ (by omega)
          have h2 : (a + 1) * 10 ^ t.length = a * 10 ^ t.length + 10 ^ t.length := by ring
          omega
        · have hba : b < a := by omega
          have h1 : (b + 1) * 10 ^ t.length ≤ a * 10 ^ t.length :=
            Nat.mul_le_mul_right _ (by omega)
          have h2 : (b + 1) * 10 ^ t.length = b * 10 ^ t.length + 10 ^ t.length := by ring
          omega
      subst hab
      have : natOfDigitsM l = natOfDigitsM t := by omega
      rw [ih t hlt (fun x hx => h₁ x (List.mem_cons_of_mem _ hx))
        (fun x hx => h₂ x (List.mem_cons_of_mem _ hx)) this]

theorem padDigitsM_two {m : ℕ} (h : m < 100) :
    padDigitsM 2 m = [m / 10, m % 10] := by
  apply digit_list_unique _ _ _ (padDigitsM_lt 2 m)
  · intro d hd
    simp at hd
    rcases hd with h1 | h1 <;> omega
  · rw [natOfDigitsM_padDigitsM]
    simp [natOfDigitsM]
    omega
  · rw [padDigitsM_length (by norm_num1; omega)]
    rfl

theorem padDigitsM_four {m : ℕ} (h : m < 10000) :
    padDigitsM 4 m = [m / 1000, m / 100 % 10, m / 10 % 10, m % 10] := by
  apply digit_list_unique _ _ _ (padDigitsM_lt 4 m)
  · intro d hd
    simp at hd
    rcases hd with h1 | h1 | h1 | h1 <;> omega
  · rw [natOfDigitsM_padDigitsM]
    simp [natOfDigitsM]
    omega
  · rw [padDigitsM_length (by norm_num1; omega)]
    rfl

/-! ## Calendar dates

Embedding of the date values handled by `pd.to_datetime` / written by
`to_csv`, restricted to the ISO `YYYY-MM-DD` text format. -/

/-- A calendar date. -/
structure Date where
  y : ℕ
  m : ℕ
  d : ℕ
deriving DecidableEq, Repr

/-- Gregorian leap year. -/
def isLeap (y : ℕ) : Bool := (y % 4 == 0 && y % 100 != 0) || y % 400 == 0

/-- Number of days in a month. -/
def daysInMonth (y m : ℕ) : ℕ :=
  if m = 2 then (if isLeap y then 29 else 28)
  else if m = 4 ∨ m = 6 ∨ m = 9 ∨ m = 11 then 30
  else 31

/-- A well-formed calendar date with a four-digit year. -/
def validDate (dt : Date) : Prop :=
  dt.y < 10000 ∧ 1 ≤ dt.m ∧ dt.m ≤ 12 ∧ 1 ≤ dt.d ∧ dt.d ≤ daysInMonth dt.y dt.m

instance : DecidablePred validDate := fun dt => by unfold validDate; infer_instance

/-- Parse an ISO `YYYY-MM-DD` character sequence as a calendar date,
rejecting malformed text and invalid dates (the embedding of
`pd.to_datetime` raising on an unparseable value). -/
def parseDateChars : List Char → Option Date
  | [y1, y2, y3, y4, s1, m1, m2, s2, d1, d2] =>
    if s1 = '-' ∧ s2 = '-' then
      match digitVal y1, digitVal y2, digitVal y3, digitVal y4,
            digitVal m1, digitVal m2, digitVal d1, digitVal d2 with
      | some a, some b, some c, some d, some e, some f, some g, some h =>
        let dt : Date := ⟨((a * 10 + b) * 10 + c) * 10 + d, e * 10 + f, g * 10 + h⟩
        if validDate dt then some dt else none
      | _, _, _, _, _, _, _, _ => none
    else none
  | _ => none

/-- `pd.to_datetime` on one cell. -/
def parseDate (s : String) : Option Date := parseDateChars s.toList

/-- ISO rendering of a date, as `to_csv` writes the index. -/
def printDateChars (dt : Date) : List Char :=
  padChars 4 dt.y ++ '-' :: (padChars 2 dt.m ++ '-' :: padChars 2 dt.d)

/-- ISO rendering of a date as a string. -/
def printDate (dt : Date) : String := String.mk (printDateChars dt)

example : parseDate "2020-01-31" = some ⟨2020, 1, 31⟩ := by decide
example : parseDate "2020-02-30" = none := by decide
example : parseDate "2020-02-29" = some ⟨2020, 2, 29⟩ := by decide
example : parseDate "2021-02-29" = none := by decide
example : parseDate "not a date" = none := by decide
example : parseDate "-" = none := by decide
example : printDate ⟨2020, 1, 5⟩ = "2020-01-05" := by decide

theorem padChars_two {m : ℕ} (h : m < 100) :
    padChars 2 m = [charOfDigit (m / 10), charOfDigit (m % 10)] := by
  simp [padChars, padDigitsM_two h]

theorem padChars_four {m : ℕ} (h : m < 10000) :
    padChars 4 m =
      [charOfDigit (m / 1000), charOfDigit (m / 100 % 10),
       charOfDigit (m / 10 % 10), charOfDigit (m % 10)] := by
  simp [padChars, padDigitsM_four h]

/-- Printing a valid date and parsing it back returns the same date. -/
theorem parseDate_printDate {dt : Date} (h : validDate dt) :
    parseDate (printDate dt) = some dt := by
  obtain ⟨hy, hm1, hm2, hd1, hd2⟩ := h
  have hmlt : dt.m < 100 := by omega
  have hdlt : dt.d < 100 := by
    have : daysInMonth dt.y dt.m ≤ 31 := by
      unfold daysInMonth
      split
      · split <;> omega
      · split <;> omega
    omega
  have htl : (printDate dt).toList = printDateChars dt := rfl
  rw [parseDate, htl, printDateChars, padChars_four hy, padChars_two hmlt,
    padChars_two hdlt]
  simp only [List.cons_append, List.nil_append, parseDateChars]
  simp only [and_self, if_true]
  rw [digitVal_charOfDigit (by omega), digitVal_charOfDigit (by omega),
    digitVal_charOfDigit (by omega), digitVal_charOfDigit (by omega),
    digitVal_charOfDigit (by omega), digitVal_charOfDigit (by omega),
    digitVal_charOfDigit (by omega), digitVal_charOfDigit (by omega)]
  have hyeq : ((dt.y / 1000 * 10 + dt.y / 100 % 10) * 10 + dt.y / 10 % 10) * 10 + dt.y % 10 = dt.y := by
    omega
  have hmeq : dt.m / 10 * 10 + dt.m % 10 = dt.m := by omega
  have hdeq : dt.d / 10 * 10 + dt.d % 10 = dt.d := by omega
  simp only [hyeq, hmeq, hdeq]
  have hv : validDate ⟨dt.y, dt.m, dt.d⟩ := ⟨hy, hm1, hm2, hd1, hd2⟩
  simp [hv]

/-- Lexicographic (chronological) order on dates, as `sort_index` orders the
datetime index. -/
def dateLe (a b : Date) : Prop :=
  a.y < b.y ∨ (a.y = b.y ∧ (a.m < b.m ∨ (a.m = b.m ∧ a.d ≤ b.d)))

/-- Strict chronological order on dates. -/
def dateLt (a b : Date) : Prop :=
  a.y < b.y ∨ (a.y = b.y ∧ (a.m < b.m ∨ (a.m = b.m ∧ a.d < b.d)))

instance : DecidableRel dateLe := fun a b => by unfold dateLe; infer_instance

instance : DecidableRel dateLt := fun a b => by unfold dateLt; infer_instance

instance : IsTotal Date dateLe :=
  ⟨fun a b => by unfold dateLe; omega⟩

instance : IsTrans Date dateLe :=
  ⟨fun a b c hab hbc => by unfold dateLe at *; omega⟩

theorem dateLe_antisymm {a b : Date} (hab : dateLe a b) (hba : dateLe b a) : a = b := by
  unfold dateLe at *
  have hy : a.y = b.y := by omega
  have hm : a.m = b.m := by omega
  have hd : a.d = b.d := by omega
  cases a; cases b
  simp_all

theorem dateLt_of_dateLe_ne {a b : Date} (hle : dateLe a b) (hne : a ≠ b) : dateLt a b := by
  rcases hle with h | ⟨hy, h | ⟨hm, hd⟩⟩
  · exact Or.inl h
  · exact Or.inr ⟨hy, Or.inl h⟩
  · refine Or.inr ⟨hy, Or.inr ⟨hm, ?_⟩⟩
    rcases Nat.lt_or_ge a.d b.d with h | h
    · exact h
    · exfalso
      apply hne
      have : a.d = b.d := by omega
      cases a; cases b; simp_all

/-! ## Tables

`RawTable` is the result of `pd.read_html(...)[0]`: a header (immediately
overwritten by the script) and rows of text cells, indexed `0..n-1`.
`NormTable` is the cleaned result: named numeric columns indexed by date,
where `none` is pandas' NaN. -/

/-- The raw scraped table. -/
structure RawTable where
  header : List String
  rows : List (List String)
deriving DecidableEq, Repr

/-- A cell of the intermediate dataframe: still text, or already coerced to a
float (`none` = NaN). -/
inductive Cell where
  | str : String → Cell
  | num : Option ℚ → Cell
deriving DecidableEq, Repr

/-- The normalized table: column names (without `Date`) and rows keyed by
date. -/
structure NormTable where
  cols : List String
  rows : List (Date × List (Option ℚ))
deriving DecidableEq, Repr

/-- The three percentage columns converted at lines 21–23 of the script. -/
def pctCols : List String := ["Contango 2/1", "Contango 7/4", "Con 7/4 div 3"]

/-- `df.iloc[0]`, promoted to the column names. -/
def promotedHeader (t : RawTable) : Option (List String) := t.rows.head?

/-- The rows that survive `df.drop(index=0)` and `df.drop(index=len(df))`:
everything but the first (duplicate header) and last (footer) row. -/
def bodyRows (t : RawTable) : List (List String) := t.rows.tail.dropLast

/-- Lift an optional value into `Except`: the embedding of an operation that
raises when the value is absent. -/
def req {α : Type} (o : Option α) (e : String) : Except String α :=
  match o with
  | some a => .ok a
  | none => .error e

/-- `pd.to_datetime(df['Date'])` followed by `set_index('Date')`: parse the
date cell of every row, failing if any is unparseable, and remove the date
column from the data cells. -/
def parseDateRows (dIdx : ℕ) : List (List String) → Except String (List (Date × List String))
  | [] => .ok []
  | r :: rs => do
    let d ← req (parseDate (r.getD dIdx "")) "to_datetime: unparseable date"
    let ps ← parseDateRows dIdx rs
    pure ((d, r.eraseIdx dIdx) :: ps)

/-- Row comparison used by `sort_index()`: by date. -/
def rowLe (a b : Date × List Cell) : Prop := dateLe a.1 b.1

instance : DecidableRel rowLe := fun a b => by unfold rowLe; infer_instance

instance : IsTotal (Date × List Cell) rowLe :=
  ⟨fun a b => IsTotal.total (r := dateLe) a.1 b.1⟩

instance : IsTrans (Date × List Cell) rowLe :=
  ⟨fun _ _ _ hab hbc => IsTrans.trans (r := dateLe) _ _ _ hab hbc⟩

/-- Lines 19–20: parse the dates, set them as the index and sort by them. -/
def sortedCellRows (dIdx : ℕ) (body : List (List String)) :
    Except String (List (Date × List Cell)) := do
  let prs ← parseDateRows dIdx body
  pure (List.insertionSort rowLe (prs.map (fun p => (p.1, p.2.map Cell.str))))

/-- `.str.replace('%', '').astype(float).mul(0.01)` on one cell: remove every
`'%'` character, parse the rest as a float, multiply by `0.01`. -/
def pctCell : Cell → Except String Cell
  | .str s =>
    match parseFloatChars (s.toList.filter (fun c => c ≠ '%')) with
    | some q => .ok (.num (some (q * (1 / 100))))
    | none => .error "could not convert string to float"
  | .num _ => .error "str accessor used on a non-string column"

/-- Apply `pctCell` to the `j`-th cell of every row. -/
def pctConvertRows (j : ℕ) : List (Date × List Cell) → Except String (List (Date × List Cell))
  | [] => .ok []
  | (d, cs) :: rs => do
    let c ← req (cs.get? j) "percentage column: missing cell"
    let c' ← pctCell c
    let rs' ← pctConvertRows j rs
    pure ((d, cs.set j c') :: rs')

/-- `df[name] = df[name].str.replace('%','').astype(float).mul(0.01)`:
look the column up by name (`KeyError` if absent) and convert it. -/
def pctConvert (cols : List String) (name : String) (rows : List (Date × List Cell)) :
    Except String (List (Date × List Cell)) :=
  let j := cols.findIdx (· == name)
  if j < cols.length then pctConvertRows j rows else .error "KeyError"

/-- The per-cell effect of the final loop, `df[c].replace('-', np.nan)`
followed by `df[c].astype(float)`: a literal `-` becomes NaN, any other
text must parse as a float, an already-numeric cell is untouched. -/
def finalCell : Cell → Except String (Option ℚ)
  | .num q => .ok q
  | .str s =>
    if s = "-" then .ok none
    else
      match parseFloat s with
      | some q => .ok (some q)
      | none => .error "could not convert string to float"

/-- `finalCell` across one row. -/
def finalRow : List Cell → Except String (List (Option ℚ))
  | [] => .ok []
  | c :: cs => do
    let v ← finalCell c
    let vs ← finalRow cs
    pure (v :: vs)

/-- `finalCell` across the whole table (the `for c in df:` loop). -/
def finalRows : List (Date × List Cell) → Except String (List (Date × List (Option ℚ)))
  | [] => .ok []
  | (d, cs) :: rs => do
    let vs ← finalRow cs
    let rs' ← finalRows rs
    pure ((d, vs) :: rs')

/-- Lines 21–26: the three percentage-column conversions, in source order,
then the `-`/float coercion loop over every column. -/
def convertAll (cols : List String) (rows : List (Date × List Cell)) :
    Except String (List (Date × List (Option ℚ))) := do
  let r1 ← pctConvert cols "Contango 2/1" rows
  let r2 ← pctConvert cols "Contango 7/4" r1
  let r3 ← pctConvert cols "Con 7/4 div 3" r2
  finalRows r3

/-- Lines 16–26 of `process_contango.py`: the whole in-memory normalization,
from the raw scraped table to the cleaned, date-indexed numeric table. -/
def normalize (t : RawTable) : Except String NormTable :=
  match promotedHeader t with
  | none => .error "iloc[0]: empty table"
  | some header =>
    if t.rows.length < 2 then .error "drop: index label not found"
    else if ∀ r ∈ t.rows, r.length = header.length then
      if header.findIdx (· == "Date") < header.length then do
        let srows ← sortedCellRows (header.findIdx (· == "Date")) (bodyRows t)
        let frows ← convertAll (header.eraseIdx (header.findIdx (· == "Date"))) srows
        pure ⟨header.eraseIdx (header.findIdx (· == "Date")), frows⟩
      else .error "KeyError: Date"
    else .error "ragged table"

/-! ## CSV serialization and the file system

The CSV file is modelled at the level of records and fields: a file is a
list of records, each a list of field strings, exactly the structure
`to_csv` writes and `read_csv` recovers. -/

/-- One CSV record (line): its fields. -/
abbrev CsvRow := List String

/-- A CSV file: its records, header first. -/
abbrev CsvData := List CsvRow

/-- A rational that is exactly representable in decimal, i.e. can be written
by a finite decimal literal (as every value produced by this pipeline is). -/
def decimalRep (q : ℚ) : Prop := q.den ∣ 10 ^ q.den

instance : DecidablePred decimalRep := fun q => by unfold decimalRep; infer_instance

/-- Decimal digit characters of the absolute value of `q`, written with
`q.den` fractional digits (exact whenever `decimalRep q`). -/
def printQUChars (q : ℚ) : List Char :=
  natChars (q.num.natAbs * 10 ^ q.den / q.den / 10 ^ q.den) ++
    '.' :: padChars q.den (q.num.natAbs * 10 ^ q.den / q.den % 10 ^ q.den)

/-- Decimal rendering of a float value, as `to_csv` writes it. -/
def printQChars (q : ℚ) : List Char :=
  (if q < 0 then ['-'] else []) ++ printQUChars q

/-- Decimal rendering of a float value as a string. -/
def printQ (q : ℚ) : String := String.mk (printQChars q)

/-- A cell as written by `to_csv`: NaN becomes the empty field. -/
def cellField : Option ℚ → String
  | none => ""
  | some q => printQ q

/-- `df.to_csv(...)`: header record `Date,<col>,...`, then one record per
row, the date first, NaN as an empty field. -/
def csvRows (nt : NormTable) : CsvData :=
  ("Date" :: nt.cols) :: nt.rows.map (fun p => printDate p.1 :: p.2.map cellField)

/-- Reading one CSV field back as a float cell: an empty field is NaN. -/
def readCell (s : String) : Except String (Option ℚ) :=
  if s = "" then .ok none
  else
    match parseFloat s with
    | some q => .ok (some q)
    | none => .error "read_csv: non-numeric field"

/-- Reading the value fields of one record. -/
def readCells : List String → Except String (List (Option ℚ))
  | [] => .ok []
  | s :: ss =>
    match readCell s with
    | .error e => .error e
    | .ok v =>
      match readCells ss with
      | .error e => .error e
      | .ok vs => .ok (v :: vs)

/-- Reading the data records of a CSV file back. -/
def readRecords : CsvData → Except String (List (Date × List (Option ℚ)))
  | [] => .ok []
  | [] :: _ => .error "read_csv: empty record"
  | (d :: cs) :: rest =>
    match parseDate d with
    | none => .error "read_csv: unparseable date"
    | some dt =>
      match readCells cs with
      | .error e => .error e
      | .ok vs =>
        match readRecords rest with
        | .error e => .error e
        | .ok rs => .ok ((dt, vs) :: rs)

/-- `pd.read_csv` of the written file, re-establishing the date index. -/
def readCsv : CsvData → Except String NormTable
  | [] => .error "read_csv: empty file"
  | hdr :: data =>
    match hdr with
    | "Date" :: cols =>
      match readRecords data with
      | .error e => .error e
      | .ok rs => .ok ⟨cols, rs⟩
    | _ => .error "read_csv: unexpected header"

/-- The file system: what content, if any, each path holds. -/
def FileSystem := String → Option CsvData

/-- Writing a file replaces the content at its path. -/
def writeFile (fs : FileSystem) (path : String) (content : CsvData) : FileSystem :=
  fun p => if p = path then some content else fs p

/-- The destination path `f'{destination_folder}/vix_contago.csv'`. -/
def destPath (folder : String) : String := folder ++ "/vix_contago.csv"

/-- One invocation of `get_and_save_vix_contago`: given the outcome of the
`read_html` fetch (which may itself raise), the destination folder, the
current file system and whether the OS write succeeds, produce the boolean
result and the resulting file system.  The single broad `except` handler
turns every failure into `False`. -/
def run (fetch : Except String RawTable) (folder : String)
    (fs : FileSystem) (writeOk : Bool) : Bool × FileSystem :=
  match fetch with
  | .error _ => (false, fs)
  | .ok t =>
    match normalize t with
    | .error _ => (false, fs)
    | .ok nt =>
      if writeOk then (true, writeFile fs (destPath folder) (csvRows nt))
      else (false, fs)

/-- The `__main__` block: `sys.exit(0)` when the function returns `True`,
`sys.exit(1)` when it returns `False`. -/
def mainExitCode (fetch : Except String RawTable) (folder : String)
    (fs : FileSystem) (writeOk : Bool) : ℕ :=
  if (run fetch folder fs writeOk).1 then 0 else 1

/-! ## Auxiliary definitions used by the statements -/

/-- An empty file system. -/
def emptyFS : FileSystem := fun _ => none

/-- The index of the `Date` column in the promoted header. -/
def dateIdxOf (t : RawTable) : ℕ :=
  ((promotedHeader t).getD []).findIdx (· == "Date")

/-- The date index of the normalized table (empty when normalization fails). -/
def normIndex (t : RawTable) : List Date :=
  match normalize t with
  | .ok nt => nt.rows.map Prod.fst
  | .error _ => []

/-! ## Theorems -/

/-- C5: the output is all-or-nothing: whenever the run fails (fetch error,
any normalization error, or write failure) the file system is exactly the
one before the call — no file is created and an existing destination file
is untouched; and whenever the run succeeds, the file system is the old one
with the fully normalized CSV written at the destination path, which can
only happen when the fetch and the whole normalization succeeded. -/
theorem run_all_or_nothing (fetch : Except String RawTable) (folder : String)
    (fs : FileSystem) (w : Bool) :
    ((run fetch folder fs w).1 = false → (run fetch folder fs w).2 = fs) ∧
    ((run fetch folder fs w).1 = true →
      ∃ t nt, fetch = .ok t ∧ normalize t = .ok nt ∧
        (run fetch folder fs w).2 = writeFile fs (destPath folder) (csvRows nt)) := by
  cases fetch with
  | error e => simp [run]
  | ok t =>
    cases hn : normalize t with
    | error e => simp [run, hn]
    | ok nt =>
      cases w with
      | false => simp [run, hn]
      | true => exact ⟨fun h => by simp [run, hn] at h, fun _ => ⟨t, nt, rfl, hn, by simp [run, hn]⟩⟩

/-- C5 witness: a failing fetch leaves an empty file system empty. -/
theorem run_all_or_nothing_witness :
    (run (.error "connection refused") "data" emptyFS true).1 = false ∧
    (run (.error "connection refused") "data" emptyFS true).2 = emptyFS :=
  ⟨rfl, (run_all_or_nothing (.error "connection refused") "data" emptyFS true).1 rfl⟩

/-- C6: the function returns `True` exactly when the fetch, the whole
normalization and the CSV write all succeed, and `False` on any failure
(the broad handler catches the exception instead of propagating it — `run`
is total); the process exits with code 0 exactly when the function returned
`True` and with code 1 exactly when it returned `False`. -/
theorem run_bool_exit_contract (fetch : Except String RawTable) (folder : String)
    (fs : FileSystem) (w : Bool) :
    ((run fetch folder fs w).1 = true ↔
      (∃ t nt, fetch = .ok t ∧ normalize t = .ok nt) ∧ w = true) ∧
    (mainExitCode fetch folder fs w = 0 ↔ (run fetch folder fs w).1 = true) ∧
    (mainExitCode fetch folder fs w = 1 ↔ (run fetch folder fs w).1 = false) := by
  cases fetch with
  | error e =>
    simp [run, mainExitCode]
  | ok t =>
    cases hn : normalize t with
    | error e => simp [run, mainExitCode, hn]
    | ok nt =>
      cases w with
      | false => simp [run, mainExitCode, hn]
      | true => simp [run, mainExitCode, hn]

/-- C9: determinism: for a fixed fetched raw table the run's boolean result
does not depend on the pre-existing file system, and on success the CSV
content written at the destination depends only on the raw table — two runs
from different file-system states write identical bytes. -/
theorem run_deterministic (t : RawTable) (folder : String) (w : Bool)
    (fs₁ fs₂ : FileSystem) :
    (run (.ok t) folder fs₁ w).1 = (run (.ok t) folder fs₂ w).1 ∧
    ((run (.ok t) folder fs₁ w).1 = true →
      (run (.ok t) folder fs₁ w).2 (destPath folder) =
        (run (.ok t) folder fs₂ w).2 (destPath folder)) := by
  cases hn : normalize t with
  | error e => simp [run, hn]
  | ok nt =>
    cases w with
    | false => simp [run, hn]
    | true =>
      refine ⟨by simp [run, hn], fun _ => ?_⟩
      simp [run, hn, writeFile]

/-! ### Stage lemmas -/

theorem except_bind_ok {α β : Type} {x : Except String α} {f : α → Except String β} {b : β} :
    (x >>= f) = .ok b ↔ ∃ a, x = .ok a ∧ f a = .ok b := by
  cases x with
  | error e => simp [Bind.bind, Except.bind]
  | ok a => simp [Bind.bind, Except.bind]

theorem except_pure_ok {α : Type} {a b : α} :
    (pure a : Except String α) = .ok b ↔ a = b := by
  simp [pure, Except.pure]

theorem req_eq_ok {α : Type} {o : Option α} {e : String} {a : α} :
    req o e = .ok a ↔ o = some a := by
  cases o <;> simp [req]

theorem parseDateRows_ok_length {dIdx : ℕ} :
    ∀ {body : List (List String)} {ps : List (Date × List String)},
      parseDateRows dIdx body = .ok ps → ps.length = body.length := by
  intro body
  induction body with
  | nil => intro ps h; simp [parseDateRows] at h; simp [← h]
  | cons b bs ih =>
    intro ps h
    unfold parseDateRows at h
    rw [except_bind_ok] at h
    obtain ⟨d, _, h⟩ := h
    rw [except_bind_ok] at h
    obtain ⟨ps', hrec, h⟩ := h
    rw [except_pure_ok] at h
    subst h
    simp [ih hrec]

theorem parseDateRows_error_of_bad {dIdx : ℕ} :
    ∀ (body : List (List String)) (i : ℕ) (r : List String),
      body.get? i = some r → parseDate (r.getD dIdx "") = none →
      ∃ e, parseDateRows dIdx body = .error e := by
  intro body
  induction body with
  | nil => intro i r h _; simp at h
  | cons b bs ih =>
    intro i r h hbad
    cases i with
    | zero =>
      rw [List.get?_cons_zero] at h
      injection h with h
      subst h
      exact ⟨_, by unfold parseDateRows; rw [hbad]; rfl⟩
    | succ i =>
      rw [List.get?_cons_succ] at h
      rcases ih i r h hbad with ⟨e, he⟩
      unfold parseDateRows
      cases hpd : parseDate (b.getD dIdx "") with
      | none => exact ⟨_, rfl⟩
      | some d => exact ⟨e, by rw [he]; rfl⟩

theorem pctConvertRows_ok_get {j : ℕ} :
    ∀ {rows rows' : List (Date × List Cell)}, pctConvertRows j rows = .ok rows' →
      ∀ (i : ℕ) (d : Date) (cs : List Cell), rows.get? i = some (d, cs) →
        ∃ c c', cs.get? j = some c ∧ pctCell c = .ok c' ∧
          rows'.get? i = some (d, cs.set j c') := by
  intro rows
  induction rows with
  | nil => intro rows' h i d cs hi; simp at hi
  | cons p ps ih =>
    intro rows' h i d cs hi
    obtain ⟨pd, pcs⟩ := p
    unfold pctConvertRows at h
    rw [except_bind_ok] at h
    obtain ⟨c, hc, h⟩ := h
    rw [req_eq_ok] at hc
    rw [except_bind_ok] at h
    obtain ⟨c', hc', h⟩ := h
    rw [except_bind_ok] at h
    obtain ⟨ps', hrec, h⟩ := h
    rw [except_pure_ok] at h
    subst h
    cases i with
    | zero =>
      rw [List.get?_cons_zero] at hi
      injection hi with hi
      injection hi with hd hcs
      subst hd; subst hcs
      exact ⟨c, c', hc, hc', by simp⟩
    | succ i =>
      rw [List.get?_cons_succ] at hi
      rcases ih hrec i d cs hi with ⟨c₀, c₀', hg₀, hpc₀, hout⟩
      exact ⟨c₀, c₀', hg₀, hpc₀, by simpa using hout⟩

theorem pctConvertRows_ok_fst {j : ℕ} :
    ∀ {rows rows' : List (Date × List Cell)}, pctConvertRows j rows = .ok rows' →
      rows'.map Prod.fst = rows.map Prod.fst := by
  intro rows
  induction rows with
  | nil => intro rows' h; simp [pctConvertRows] at h; simp [← h]
  | cons p ps ih =>
    intro rows' h
    obtain ⟨pd, pcs⟩ := p
    unfold pctConvertRows at h
    rw [except_bind_ok] at h
    obtain ⟨c, hc, h⟩ := h
    rw [except_bind_ok] at h
    obtain ⟨c', hc', h⟩ := h
    rw [except_bind_ok] at h
    obtain ⟨ps', hrec, h⟩ := h
    rw [except_pure_ok] at h
    subst h
    simp [ih hrec]

theorem finalRow_ok_get :
    ∀ {cs : List Cell} {vs : List (Option ℚ)}, finalRow cs = .ok vs →
      ∀ (j : ℕ) (c : Cell), cs.get? j = some c →
        ∃ v, finalCell c = .ok v ∧ vs.get? j = some v := by
  intro cs
  induction cs with
  | nil => intro vs h j c hj; simp at hj
  | cons c₀ cs₀ ih =>
    intro vs h j c hj
    unfold finalRow at h
    rw [except_bind_ok] at h
    obtain ⟨v₀, hv₀, h⟩ := h
    rw [except_bind_ok] at h
    obtain ⟨vs₀, hrec, h⟩ := h
    rw [except_pure_ok] at h
    subst h
    cases j with
    | zero =>
      rw [List.get?_cons_zero] at hj
      injection hj with hj
      subst hj
      exact ⟨v₀, hv₀, by simp⟩
    | succ j =>
      rw [List.get?_cons_succ] at hj
      rcases ih hrec j c hj with ⟨v, hv, hout⟩
      exact ⟨v, hv, by simpa using hout⟩

theorem finalRow_ok_length :
    ∀ {cs : List Cell} {vs : List (Option ℚ)}, finalRow cs = .ok vs →
      vs.length = cs.length := by
  intro cs
  induction cs with
  | nil => intro vs h; simp [finalRow] at h; simp [← h]
  | cons c₀ cs₀ ih =>
    intro vs h
    unfold finalRow at h
    rw [except_bind_ok] at h
    obtain ⟨v₀, hv₀, h⟩ := h
    rw [except_bind_ok] at h
    obtain ⟨vs₀, hrec, h⟩ := h
    rw [except_pure_ok] at h
    subst h
    simp [ih hrec]

theorem finalRows_ok_get :
    ∀ {rows : List (Date × List Cell)} {out : List (Date × List (Option ℚ))},
      finalRows rows = .ok out →
      ∀ (i : ℕ) (d : Date) (cs : List Cell), rows.get? i = some (d, cs) →
        ∃ vs, finalRow cs = .ok vs ∧ out.get? i = some (d, vs) := by
  intro rows
  induction rows with
  | nil => intro out h i d cs hi; simp at hi
  | cons p ps ih =>
    intro out h i d cs hi
    obtain ⟨pd, pcs⟩ := p
    unfold finalRows at h
    rw [except_bind_ok] at h
    obtain ⟨vs₀, hvs₀, h⟩ := h
    rw [except_bind_ok] at h
    obtain ⟨out₀, hrec, h⟩ := h
    rw [except_pure_ok] at h
    subst h
    cases i with
    | zero =>
      rw [List.get?_cons_zero] at hi
      injection hi with hi
      injection hi with hd hcs
      subst hd; subst hcs
      exact ⟨vs₀, hvs₀, by simp⟩
    | succ i =>
      rw [List.get?_cons_succ] at hi
      rcases ih hrec i d cs hi with ⟨vs, hvs, hout⟩
      exact ⟨vs, hvs, by simpa using hout⟩

theorem finalRows_ok_fst :
    ∀ {rows : List (Date × List Cell)} {out : List (Date × List (Option ℚ))},
      finalRows rows = .ok out → out.map Prod.fst = rows.map Prod.fst := by
  intro rows
  induction rows with
  | nil => intro out h; simp [finalRows] at h; simp [← h]
  | cons p ps ih =>
    intro out h
    obtain ⟨pd, pcs⟩ := p
    unfold finalRows at h
    rw [except_bind_ok] at h
    obtain ⟨vs₀, hvs₀, h⟩ := h
    rw [except_bind_ok] at h
    obtain ⟨out₀, hrec, h⟩ := h
    rw [except_pure_ok] at h
    subst h
    simp [ih hrec]

theorem normalize_error_of_bad_date (t : RawTable) (i : ℕ) (r : List String)
    (hr : (bodyRows t).get? i = some r)
    (hbad : parseDate (r.getD (dateIdxOf t) "") = none) :
    ∃ e, normalize t = .error e := by
  cases hh : promotedHeader t with
  | none => exact ⟨"iloc[0]: empty table", by simp only [normalize, hh]⟩
  | some header =>
    by_cases h2 : t.rows.length < 2
    · exact ⟨"drop: index label not found", by simp only [normalize, hh]; rw [if_pos h2]⟩
    · by_cases hrect : ∀ r ∈ t.rows, r.length = header.length
      · by_cases hidx : header.findIdx (· == "Date") < header.length
        · have hdIdx : dateIdxOf t = header.findIdx (· == "Date") := by
            simp [dateIdxOf, hh]
          rw [hdIdx] at hbad
          rcases parseDateRows_error_of_bad (bodyRows t) i r hr hbad with ⟨e, he⟩
          have hs : sortedCellRows (header.findIdx (· == "Date")) (bodyRows t) = .error e := by
            unfold sortedCellRows; rw [he]; rfl
          refine ⟨e, ?_⟩
          simp only [normalize, hh]
          rw [if_neg h2, if_pos hrect, if_pos hidx, hs]
          rfl
        · exact ⟨"KeyError: Date",
            by simp only [normalize, hh]; rw [if_neg h2, if_pos hrect, if_neg hidx]⟩
      · exact ⟨"ragged table", by simp only [normalize, hh]; rw [if_neg h2, if_neg hrect]⟩

/-- C7: if any value in the `Date` column of the data rows is unparseable as
a calendar date, the whole operation fails: normalization raises (so
nothing is coerced or skipped), the function returns `False`, and the file
system is left untouched. -/
theorem unparseable_date_fails (t : RawTable) (i : ℕ) (r : List String)
    (hr : (bodyRows t).get? i = some r)
    (hbad : parseDate (r.getD (dateIdxOf t) "") = none) :
    (∃ e, normalize t = .error e) ∧
    ∀ (folder : String) (fs : FileSystem) (w : Bool),
      run (.ok t) folder fs w = (false, fs) := by
  rcases normalize_error_of_bad_date t i r hr hbad with ⟨e, he⟩
  refine ⟨⟨e, he⟩, fun folder fs w => ?_⟩
  simp [run, he]

/-- A raw table whose data row has an unparseable `Date` cell. -/
def badDateTable : RawTable :=
  ⟨["Date", "Contango 2/1", "Contango 7/4", "Con 7/4 div 3"],
   [["Date", "Contango 2/1", "Contango 7/4", "Con 7/4 div 3"],
    ["not a date", "10%", "20%", "30%"],
    ["footer", "", "", ""]]⟩

/-- C7 witness: a table with the date text `not a date` makes the run fail
and leaves the file system untouched. -/
theorem unparseable_date_fails_witness :
    run (.ok badDateTable) "data" emptyFS true = (false, emptyFS) :=
  (unparseable_date_fails badDateTable 0 ["not a date", "10%", "20%", "30%"]
    rfl rfl).2 "data" emptyFS true

theorem except_ok_of_isOk {α : Type} {x : Except String α} (h : x.isOk = true) :
    ∃ a, x = .ok a := by
  cases x with
  | ok a => exact ⟨a, rfl⟩
  | error e => simp [Except.isOk, Except.toBool] at h

theorem pctConvert_ok {cols : List String} {name : String}
    {rows out : List (Date × List Cell)} (h : pctConvert cols name rows = .ok out) :
    pctConvertRows (cols.findIdx (· == name)) rows = .ok out := by
  unfold pctConvert at h
  by_cases hj : cols.findIdx (· == name) < cols.length
  · rwa [if_pos hj] at h
  · rw [if_neg hj] at h; exact absurd h (by simp)

theorem normalize_ok_inv {t : RawTable} {nt : NormTable} (h : normalize t = .ok nt) :
    ∃ header prs r1 r2 r3,
      promotedHeader t = some header ∧
      2 ≤ t.rows.length ∧
      header.findIdx (· == "Date") < header.length ∧
      parseDateRows (header.findIdx (· == "Date")) (bodyRows t) = .ok prs ∧
      pctConvert (header.eraseIdx (header.findIdx (· == "Date"))) "Contango 2/1"
        (List.insertionSort rowLe (prs.map (fun p => (p.1, p.2.map Cell.str)))) = .ok r1 ∧
      pctConvert (header.eraseIdx (header.findIdx (· == "Date"))) "Contango 7/4" r1 = .ok r2 ∧
      pctConvert (header.eraseIdx (header.findIdx (· == "Date"))) "Con 7/4 div 3" r2 = .ok r3 ∧
      finalRows r3 = .ok nt.rows ∧
      nt.cols = header.eraseIdx (header.findIdx (· == "Date")) := by
  cases hh : promotedHeader t with
  | none => simp only [normalize, hh] at h; exact absurd h (by simp)
  | some header =>
    simp only [normalize, hh] at h
    by_cases h2 : t.rows.length < 2
    · rw [if_pos h2] at h; exact absurd h (by simp)
    · rw [if_neg h2] at h
      by_cases hrect : ∀ r ∈ t.rows, r.length = header.length
      · rw [if_pos hrect] at h
        by_cases hidx : header.findIdx (· == "Date") < header.length
        · rw [if_pos hidx] at h
          rw [except_bind_ok] at h
          obtain ⟨srows, hs, h⟩ := h
          rw [except_bind_ok] at h
          obtain ⟨frows, hf, h⟩ := h
          rw [except_pure_ok] at h
          subst h
          unfold sortedCellRows at hs
          rw [except_bind_ok] at hs
          obtain ⟨prs, hprs, hs⟩ := hs
          rw [except_pure_ok] at hs
          subst hs
          unfold convertAll at hf
          rw [except_bind_ok] at hf
          obtain ⟨r1, hr1, hf⟩ := hf
          rw [except_bind_ok] at hf
          obtain ⟨r2, hr2, hf⟩ := hf
          rw [except_bind_ok] at hf
          obtain ⟨r3, hr3, hf⟩ := hf
          exact ⟨header, prs, r1, r2, r3, rfl, by omega, hidx, hprs, hr1, hr2, hr3, hf, rfl⟩
        · rw [if_neg hidx] at h; exact absurd h (by simp)
      · rw [if_neg hrect] at h; exact absurd h (by simp)

/-- C3: a successful normalization has consumed a table of at least two rows
and produced exactly `raw_row_count - 2` rows: the first (duplicate header)
and last (footer) rows are dropped, and the output rows correspond (as a
permutation, by date) exactly to the remaining middle rows. -/
theorem normalize_row_count (t : RawTable) (nt : NormTable)
    (h : normalize t = .ok nt) :
    2 ≤ t.rows.length ∧
    nt.rows.length = t.rows.length - 2 ∧
    ∃ prs, parseDateRows (dateIdxOf t) (bodyRows t) = .ok prs ∧
      prs.length = (bodyRows t).length ∧
      (nt.rows.map Prod.fst).Perm (prs.map Prod.fst) := by
  obtain ⟨header, prs, r1, r2, r3, hh, h2, hidx, hprs, hr1, hr2, hr3, hf, hcols⟩ :=
    normalize_ok_inv h
  have hdIdx : dateIdxOf t = header.findIdx (· == "Date") := by simp [dateIdxOf, hh]
  have hfst : nt.rows.map Prod.fst =
      (List.insertionSort rowLe (prs.map (fun p => (p.1, p.2.map Cell.str)))).map Prod.fst := by
    rw [finalRows_ok_fst hf, pctConvertRows_ok_fst (pctConvert_ok hr3),
      pctConvertRows_ok_fst (pctConvert_ok hr2), pctConvertRows_ok_fst (pctConvert_ok hr1)]
  have hmfst : (prs.map (fun p => (p.1, p.2.map Cell.str))).map Prod.fst = prs.map Prod.fst := by
    simp
  have hperm : (nt.rows.map Prod.fst).Perm (prs.map Prod.fst) := by
    rw [hfst, ← hmfst]
    exact (List.perm_insertionSort rowLe _).map Prod.fst
  have hlen : nt.rows.length = prs.length := by
    have := hperm.length_eq
    simpa using this
  have hblen : prs.length = (bodyRows t).length := parseDateRows_ok_length hprs
  have hbody : (bodyRows t).length = t.rows.length - 2 := by
    unfold bodyRows
    rw [List.length_dropLast, List.length_tail]
    omega
  refine ⟨h2, by omega, prs, ?_, hblen, hperm⟩
  rw [hdIdx]
  exact hprs

/-- The number of rows of the normalized table, when normalization succeeds. -/
def normRowCount (t : RawTable) : Option ℕ :=
  match normalize t with
  | .ok nt => some nt.rows.length
  | .error _ => none

/-- The spec's scenario table: duplicate header row, one data row, footer. -/
def scenarioTable : RawTable :=
  ⟨["Date", "Contango 2/1", "Contango 7/4", "Con 7/4 div 3"],
   [["Date", "Contango 2/1", "Contango 7/4", "Con 7/4 div 3"],
    ["2020-01-01", "10%", "20%", "30%"],
    ["footer", "", "", ""]]⟩

/-- C3 witness: the three-row scenario table normalizes to exactly one row. -/
theorem normalize_row_count_witness : normRowCount scenarioTable = some 1 := by
  obtain ⟨nt, hnt⟩ := except_ok_of_isOk (x := normalize scenarioTable) rfl
  have hcount := (normalize_row_count scenarioTable nt hnt).2.1
  have h3 : scenarioTable.rows.length = 3 := rfl
  rw [h3] at hcount
  simp [normRowCount, hnt, hcount]

theorem pairwise_and_of_pairwise {α : Type} {R S : α → α → Prop} :
    ∀ {l : List α}, l.Pairwise R → l.Pairwise S → l.Pairwise (fun a b => R a b ∧ S a b) := by
  intro l
  induction l with
  | nil => intro _ _; exact List.Pairwise.nil
  | cons a l ih =>
    intro hr hs
    rw [List.pairwise_cons] at *
    exact ⟨fun b hb => ⟨hr.1 b hb, hs.1 b hb⟩, ih hr.2 hs.2⟩

/-- C4 (amended): the normalized date index is sorted in ascending
(non-decreasing) order; it is strictly ascending with no duplicate dates
whenever the parsed dates of the raw data rows are pairwise distinct, but a
duplicated raw date survives as a duplicated index entry (`sort_index` does
not deduplicate). -/
theorem normalize_index_sorted (t : RawTable) (nt : NormTable)
    (h : normalize t = .ok nt) :
    List.Pairwise dateLe (nt.rows.map Prod.fst) ∧
    (∀ prs, parseDateRows (dateIdxOf t) (bodyRows t) = .ok prs →
      (prs.map Prod.fst).Nodup → List.Pairwise dateLt (nt.rows.map Prod.fst)) := by
  obtain ⟨header, prs, r1, r2, r3, hh, h2, hidx, hprs, hr1, hr2, hr3, hf, hcols⟩ :=
    normalize_ok_inv h
  have hdIdx : dateIdxOf t = header.findIdx (· == "Date") := by simp [dateIdxOf, hh]
  have hfst : nt.rows.map Prod.fst =
      (List.insertionSort rowLe (prs.map (fun p => (p.1, p.2.map Cell.str)))).map Prod.fst := by
    rw [finalRows_ok_fst hf, pctConvertRows_ok_fst (pctConvert_ok hr3),
      pctConvertRows_ok_fst (pctConvert_ok hr2), pctConvertRows_ok_fst (pctConvert_ok hr1)]
  have hsorted : List.Pairwise rowLe
      (List.insertionSort rowLe (prs.map (fun p => (p.1, p.2.map Cell.str)))) :=
    List.sorted_insertionSort rowLe _
  have hpw : List.Pairwise dateLe (nt.rows.map Prod.fst) := by
    rw [hfst, List.pairwise_map]
    exact hsorted
  refine ⟨hpw, fun prs' hprs' hnd => ?_⟩
  rw [hdIdx, hprs] at hprs'
  injection hprs' with hprs'
  subst hprs'
  have hperm : (nt.rows.map Prod.fst).Perm (prs.map Prod.fst) := by
    have hp := (List.perm_insertionSort rowLe (prs.map (fun p => (p.1, p.2.map Cell.str)))).map
      Prod.fst
    have hmfst : (prs.map (fun p => (p.1, p.2.map Cell.str))).map Prod.fst =
        prs.map Prod.fst := by simp
    rw [hmfst] at hp
    rw [hfst]
    exact hp
  have hnodup : (nt.rows.map Prod.fst).Nodup := (List.Perm.nodup_iff hperm).mpr hnd
  have hand := pairwise_and_of_pairwise hpw hnodup
  exact hand.imp (fun hab => dateLt_of_dateLe_ne hab.1 hab.2)

/-- A raw table with the same trading date on two data rows. -/
def dupDateTable : RawTable :=
  ⟨["Date", "Contango 2/1", "Contango 7/4", "Con 7/4 div 3"],
   [["Date", "Contango 2/1", "Contango 7/4", "Con 7/4 div 3"],
    ["2020-01-05", "10%", "20%", "30%"],
    ["2020-01-05", "11%", "21%", "31%"],
    ["footer", "", "", ""]]⟩

/-- C4 counterexample: a raw table whose `Date` values all parse but contain
a duplicate normalizes successfully to an index with a duplicated date, so
the index is *not* strictly ascending with no duplicates. -/
theorem normalize_index_dup_counterexample :
    normIndex dupDateTable = [⟨2020, 1, 5⟩, ⟨2020, 1, 5⟩] ∧
    ¬ List.Pairwise dateLt (normIndex dupDateTable) := by
  have hidxval : normIndex dupDateTable = [⟨2020, 1, 5⟩, ⟨2020, 1, 5⟩] := rfl
  refine ⟨hidxval, ?_⟩
  rw [hidxval]
  intro hpw
  have := (List.pairwise_cons.mp hpw).1 ⟨2020, 1, 5⟩ (by simp)
  unfold dateLt at this
  omega

/-- A raw table with two distinct dates, deliberately out of order. -/
def twoDateTable : RawTable :=
  ⟨["Date", "Contango 2/1", "Contango 7/4", "Con 7/4 div 3"],
   [["Date", "Contango 2/1", "Contango 7/4", "Con 7/4 div 3"],
    ["2020-01-02", "10%", "20%", "30%"],
    ["2020-01-01", "11%", "21%", "31%"],
    ["footer", "", "", ""]]⟩

/-- C4 witness: a successfully normalized table has a non-decreasing date
index. -/
theorem normalize_index_sorted_witness :
    List.Pairwise dateLe (normIndex twoDateTable) := by
  obtain ⟨nt, hnt⟩ := except_ok_of_isOk (x := normalize twoDateTable) rfl
  have h := (normalize_index_sorted twoDateTable nt hnt).1
  have hidx : normIndex twoDateTable = nt.rows.map Prod.fst := by
    simp [normIndex, hnt]
  rw [hidx]
  exact h

/-- C9 witness: a successful run writes the same content at the destination
path regardless of the pre-existing file system. -/
theorem run_deterministic_witness :
    (run (.ok scenarioTable) "data" emptyFS true).1 = true ∧
    (run (.ok scenarioTable) "data" emptyFS true).2 (destPath "data") =
      (run (.ok scenarioTable) "data" (writeFile emptyFS "other" [["junk"]]) true).2
        (destPath "data") :=
  ⟨rfl, (run_deterministic scenarioTable "data" true emptyFS
    (writeFile emptyFS "other" [["junk"]])).2 rfl⟩

/-- A raw table with a `-` cell in the percentage column `Contango 2/1`. -/
def dashPctTable : RawTable :=
  ⟨["Date", "A", "Contango 2/1", "Contango 7/4", "Con 7/4 div 3"],
   [["Date", "A", "Contango 2/1", "Contango 7/4", "Con 7/4 div 3"],
    ["2020-01-01", "1.5", "-", "20%", "30%"],
    ["footer", "", "", "", ""]]⟩

/-- C2 counterexample: a `-` cell in a percentage column is *not* mapped to
NaN — the percentage conversion's `astype(float)` runs before the
`replace('-', nan)` loop and fails on it, so the whole operation errors
out. -/
theorem dash_pct_column_counterexample :
    normalize dashPctTable = .error "could not convert string to float" ∧
    (run (.ok dashPctTable) "data" emptyFS true).1 = false :=
  ⟨rfl, rfl⟩

/-- C2 (amended): in the final per-column loop — the conversion every
non-percentage column goes through — a cell that is exactly `-` is mapped
to the missing-value marker NaN rather than failing; but in the three
percentage columns, which are converted earlier, a `-` cell makes the
operation fail. -/
theorem dash_to_nan_amended :
    (∀ (cs : List Cell) (vs : List (Option ℚ)), finalRow cs = .ok vs →
      ∀ (j : ℕ), cs.get? j = some (Cell.str "-") → vs.get? j = some none) ∧
    pctCell (Cell.str "-") = .error "could not convert string to float" := by
  constructor
  · intro cs vs h j hj
    rcases finalRow_ok_get h j _ hj with ⟨v, hv, hout⟩
    have hdash : finalCell (Cell.str "-") = .ok none := rfl
    rw [hdash] at hv
    injection hv with hv
    rw [hv]
    exact hout
  · rfl

/-- C2 witness: a one-cell row holding `-` converts to a NaN cell. -/
theorem dash_to_nan_amended_witness :
    finalRow [Cell.str "-"] = .ok [none] ∧
    ([(none : Option ℚ)].get? 0 = some none) :=
  ⟨rfl, dash_to_nan_amended.1 [Cell.str "-"] [none] rfl 0 rfl⟩

/-- C1: a percentage cell whose text is a number followed by `%` is
normalized to that number divided by 100: the conversion strips the `%`,
parses the remainder as a float and multiplies by `0.01`, and the
subsequent `-`/float loop leaves the converted value unchanged, so this is
the value in the normalized output. -/
theorem pct_cell_value (cs : List Char) (x : ℚ)
    (hnp : '%' ∉ cs) (hx : parseFloatChars cs = some x) :
    pctCell (.str (String.mk (cs ++ ['%']))) = .ok (.num (some (x / 100))) ∧
    finalCell (.num (some (x / 100))) = .ok (some (x / 100)) := by
  constructor
  · have htl : (String.mk (cs ++ ['%'])).toList = cs ++ ['%'] := rfl
    have hfilter : (cs ++ ['%']).filter (fun c => c ≠ '%') = cs := by
      rw [List.filter_append]
      have h1 : cs.filter (fun c => c ≠ '%') = cs :=
        List.filter_eq_self.mpr (fun c hc => by
          simp only [ne_eq, decide_eq_true_eq]
          exact fun he => hnp (he ▸ hc))
      have h2 : (['%'] : List Char).filter (fun c => c ≠ '%') = [] := rfl
      rw [h1, h2, List.append_nil]
    have hred : pctCell (.str (String.mk (cs ++ ['%']))) =
        match parseFloatChars ((cs ++ ['%']).filter (fun c => c ≠ '%')) with
        | some q => .ok (.num (some (q * (1 / 100))))
        | none => .error "could not convert string to float" := rfl
    rw [hred, hfilter, hx]
    show Except.ok (Cell.num (some (x * (1 / 100)))) = Except.ok (Cell.num (some (x / 100)))
    rw [mul_one_div]
  · rfl

/-- C1 witness: the cell `12.3%` becomes `12.3 / 100 = 0.123`. -/
theorem pct_cell_value_witness :
    pctCell (.str (String.mk ("12.3".toList ++ ['%']))) =
      .ok (.num (some ((123 / 10 : ℚ) / 100))) ∧
    finalCell (.num (some ((123 / 10 : ℚ) / 100))) = .ok (some ((123 / 10 : ℚ) / 100)) :=
  pct_cell_value "12.3".toList (123 / 10) (by decide)
    (by simp [parseFloatChars, parseUnsigned, parseParts, splitDot, digitsVal, digitVal,
          natOfDigitsM, String.toList]
        norm_num)

/-- A raw table whose `Contango 2/1` cell is the odd text `1%2%`. -/
def pctTextTable : RawTable :=
  ⟨["Date", "Contango 2/1", "Contango 7/4", "Con 7/4 div 3"],
   [["Date", "Contango 2/1", "Contango 7/4", "Con 7/4 div 3"],
    ["2020-01-01", "1%2%", "20%", "30%"],
    ["footer", "", "", ""]]⟩

/-- C10: the percentage conversion removes *every* `%` character, not just a
trailing one: `1%2%` becomes the text `12`, which parses as `12.0` and is
output as `0.12`; the final loop keeps that value, and a table containing
such a cell is accepted by the whole pipeline rather than rejected. -/
theorem pct_strip_all_percents :
    "1%2%".toList.filter (fun c => c ≠ '%') = "12".toList ∧
    pctCell (Cell.str "1%2%") = .ok (.num (some (12 / 100))) ∧
    finalCell (.num (some ((12 : ℚ) / 100))) = .ok (some (12 / 100)) ∧
    (run (.ok pctTextTable) "data" emptyFS true).1 = true := by
  refine ⟨rfl, ?_, rfl, rfl⟩
  have hred : pctCell (Cell.str "1%2%") =
      match parseFloatChars ("1%2%".toList.filter (fun c => c ≠ '%')) with
      | some q => .ok (.num (some (q * (1 / 100))))
      | none => .error "could not convert string to float" := rfl
  have hfl : "1%2%".toList.filter (fun c => c ≠ '%') = ['1', '2'] := rfl
  have hpf : parseFloatChars ['1', '2'] = some 12 := by
    simp [parseFloatChars, parseUnsigned, parseParts, splitDot, digitsVal, digitVal,
      natOfDigitsM]
  rw [hred, hfl, hpf]
  show Except.ok (Cell.num (some ((12 : ℚ) * (1 / 100)))) =
    Except.ok (Cell.num (some (12 / 100)))
  norm_num

/-! ### CSV round trip -/

theorem charOfDigit_ne_special {d : ℕ} (h : d < 10) :
    charOfDigit d ≠ '.' ∧ charOfDigit d ≠ '-' ∧ charOfDigit d ≠ '+' := by
  interval_cases d <;> exact ⟨by decide, by decide, by decide⟩

theorem splitDot_append {A B : List Char} (h : '.' ∉ A) :
    splitDot (A ++ '.' :: B) = (A, some B) := by
  induction A with
  | nil => simp [splitDot]
  | cons a A ih =>
    have ha : a ≠ '.' := fun he => h (he ▸ List.mem_cons_self a A)
    have hA : '.' ∉ A := fun hm => h (List.mem_cons_of_mem a hm)
    simp only [List.cons_append, splitDot, if_neg ha, List.append_eq, ih hA]


theorem natDigitsM_ne_nil (n : ℕ) : natDigitsM n ≠ [] := by
  unfold natDigitsM
  split
  · simp
  · rw [decDigits_eq]
    simp only [ne_eq, List.reverse_eq_nil_iff]
    exact Nat.digits_ne_nil_iff_ne_zero.mpr (by assumption)

theorem dot_not_mem_natChars (n : ℕ) : '.' ∉ natChars n := by
  unfold natChars
  intro hm
  rcases List.mem_map.mp hm with ⟨d, hd, he⟩
  exact (charOfDigit_ne_special (natDigitsM_lt n d hd)).1 he

theorem parseUnsigned_concat {i k f : ℕ} (hf : f < 10 ^ k) :
    parseUnsigned (natChars i ++ '.' :: padChars k f) =
      some ((i : ℚ) + (f : ℚ) / (10 : ℚ) ^ k) := by
  unfold parseUnsigned
  rw [splitDot_append (dot_not_mem_natChars i)]
  have hne : natChars i ≠ [] := by
    unfold natChars
    simp only [ne_eq, List.map_eq_nil_iff]
    exact natDigitsM_ne_nil i
  simp only [parseParts]
  rw [if_neg (fun hand => hne hand.1)]
  unfold natChars padChars
  rw [digitsVal_map_charOfDigit (natDigitsM_lt i), digitsVal_map_charOfDigit (padDigitsM_lt k f)]
  have hlen : ((padDigitsM k f).map charOfDigit).length = k := by
    rw [List.length_map, padDigitsM_length hf]
  rw [hlen]
  show some ((natOfDigitsM (natDigitsM i) : ℚ) +
      (natOfDigitsM (padDigitsM k f) : ℚ) / (10 : ℚ) ^ k) =
    some ((i : ℚ) + (f : ℚ) / (10 : ℚ) ^ k)
  rw [natOfDigitsM_natDigitsM, natOfDigitsM_padDigitsM]

theorem printQ_value {q : ℚ} (h : decimalRep q) :
    ((q.num.natAbs * 10 ^ q.den / q.den / 10 ^ q.den : ℕ) : ℚ) +
      ((q.num.natAbs * 10 ^ q.den / q.den % 10 ^ q.den : ℕ) : ℚ) / (10 : ℚ) ^ q.den =
    (q.num.natAbs : ℚ) / (q.den : ℚ) := by
  obtain ⟨t, ht⟩ := h
  have hden : 0 < q.den := q.pos
  have hP : (0 : ℕ) < 10 ^ q.den := pow_pos (by norm_num) _
  have ht0 : 0 < t := by
    rcases Nat.eq_zero_or_pos t with h0 | h0
    · rw [h0, Nat.mul_zero] at ht; omega
    · exact h0
  have hn : q.num.natAbs * 10 ^ q.den / q.den = q.num.natAbs * t := by
    rw [ht, show q.num.natAbs * (q.den * t) = q.den * (q.num.natAbs * t) from by ring,
      Nat.mul_div_cancel_left _ hden]
  set n := q.num.natAbs * 10 ^ q.den / q.den with hndef
  have hmod : 10 ^ q.den * (n / 10 ^ q.den) + n % 10 ^ q.den = n := Nat.div_add_mod n _
  have hcast : ((n : ℚ)) = ((10 : ℚ) ^ q.den) * ((n / 10 ^ q.den : ℕ) : ℚ) +
      ((n % 10 ^ q.den : ℕ) : ℚ) := by
    exact_mod_cast congrArg (Nat.cast : ℕ → ℚ) hmod.symm
  have hPne : ((10 : ℚ) ^ q.den) ≠ 0 := by positivity
  have hsplit : ((n / 10 ^ q.den : ℕ) : ℚ) + ((n % 10 ^ q.den : ℕ) : ℚ) / (10 : ℚ) ^ q.den =
      (n : ℚ) / (10 : ℚ) ^ q.den := by
    rw [hcast]
    field_simp
    ring
  have htQ : ((10 : ℚ) ^ q.den) = (q.den : ℚ) * (t : ℚ) := by
    exact_mod_cast congrArg (Nat.cast : ℕ → ℚ) ht
  have htne : (t : ℚ) ≠ 0 := by exact_mod_cast ht0.ne'
  have hdne : (q.den : ℚ) ≠ 0 := by exact_mod_cast hden.ne'
  rw [hsplit, hn, htQ]
  push_cast
  field_simp
  ring

theorem parseUnsigned_printQUChars {q : ℚ} (h : decimalRep q) :
    parseUnsigned (printQUChars q) = some ((q.num.natAbs : ℚ) / (q.den : ℚ)) := by
  unfold printQUChars
  rw [parseUnsigned_concat (Nat.mod_lt _ (pow_pos (by norm_num) _)), printQ_value h]

theorem parseFloatChars_printQChars {q : ℚ} (h : decimalRep q) :
    parseFloatChars (printQChars q) = some q := by
  by_cases hneg : q < 0
  · unfold printQChars
    rw [if_pos hneg, List.singleton_append]
    have hred : parseFloatChars ('-' :: printQUChars q) =
        (parseUnsigned (printQUChars q)).map (fun x => -x) := by
      simp [parseFloatChars]
    rw [hred, parseUnsigned_printQUChars h]
    simp only [Option.map_some']
    congr 1
    have hnum0 : q.num < 0 := by
      by_contra hge
      exact absurd (Rat.num_nonneg.mp (not_lt.mp hge)) (not_le.mpr hneg)
    have hnum : (q.num.natAbs : ℚ) = -(q.num : ℚ) := by
      rw [Int.cast_natAbs, abs_of_neg hnum0]
      push_cast
      ring
    rw [hnum, neg_div, neg_neg, Rat.num_div_den]
  · unfold printQChars
    rw [if_neg hneg, List.nil_append]
    cases hnc : natChars (q.num.natAbs * 10 ^ q.den / q.den / 10 ^ q.den) with
    | nil =>
      exfalso
      apply natDigitsM_ne_nil (q.num.natAbs * 10 ^ q.den / q.den / 10 ^ q.den)
      have := congrArg List.length hnc
      simpa [natChars] using this
    | cons c cs =>
      have hcmem : c ∈ natChars (q.num.natAbs * 10 ^ q.den / q.den / 10 ^ q.den) := by
        rw [hnc]; exact List.mem_cons_self _ _
      have hc : ∃ d, d < 10 ∧ charOfDigit d = c := by
        unfold natChars at hcmem
        rcases List.mem_map.mp hcmem with ⟨d, hd, he⟩
        exact ⟨d, natDigitsM_lt _ d hd, he⟩
      obtain ⟨d, hd10, hcd⟩ := hc
      have hcne := charOfDigit_ne_special hd10
      unfold printQUChars
      rw [hnc, List.cons_append]
      have hred : parseFloatChars (c :: (cs ++ '.' ::
          padChars q.den (q.num.natAbs * 10 ^ q.den / q.den % 10 ^ q.den))) =
          parseUnsigned (c :: (cs ++ '.' ::
            padChars q.den (q.num.natAbs * 10 ^ q.den / q.den % 10 ^ q.den))) := by
        simp only [parseFloatChars]
        rw [if_neg (hcd ▸ hcne.2.1), if_neg (hcd ▸ hcne.2.2)]
      rw [hred, ← List.cons_append, ← hnc]
      show parseUnsigned (printQUChars q) = some q
      rw [parseUnsigned_printQUChars h]
      congr 1
      have hnum : (q.num.natAbs : ℚ) = (q.num : ℚ) := by
        rw [Int.cast_natAbs, abs_of_nonneg (Rat.num_nonneg.mpr (not_lt.mp hneg))]
      rw [hnum, Rat.num_div_den]

/-- A float cell that is either NaN or exactly decimal-representable — the
shape of every cell this pipeline writes. -/
def decimalRepOpt : Option ℚ → Prop
  | none => True
  | some q => decimalRep q

instance : DecidablePred decimalRepOpt := fun v =>
  match v with
  | none => isTrue trivial
  | some q => inferInstanceAs (Decidable (decimalRep q))

theorem printQChars_ne_nil (q : ℚ) : printQChars q ≠ [] := by
  unfold printQChars printQUChars
  intro he
  rcases List.append_eq_nil.mp he with ⟨_, h2⟩
  rcases List.append_eq_nil.mp h2 with ⟨h3, _⟩
  exact natDigitsM_ne_nil _ (List.map_eq_nil_iff.mp h3)

theorem readCell_cellField {v : Option ℚ} (h : decimalRepOpt v) :
    readCell (cellField v) = .ok v := by
  cases v with
  | none => rfl
  | some q =>
    have hne : cellField (some q) ≠ "" := by
      intro he
      exact printQChars_ne_nil q (congrArg String.data he)
    unfold readCell
    rw [if_neg hne]
    have htl : parseFloat (cellField (some q)) = parseFloatChars (printQChars q) := rfl
    rw [htl, parseFloatChars_printQChars h]

theorem readCells_map {cs : List (Option ℚ)} (h : ∀ v ∈ cs, decimalRepOpt v) :
    readCells (cs.map cellField) = .ok cs := by
  induction cs with
  | nil => rfl
  | cons v vs ih =>
    have hv := h v (List.mem_cons_self _ _)
    have hvs := ih (fun x hx => h x (List.mem_cons_of_mem _ hx))
    show readCells (cellField v :: vs.map cellField) = .ok (v :: vs)
    unfold readCells
    rw [readCell_cellField hv, hvs]

theorem readRecords_map {rows : List (Date × List (Option ℚ))}
    (hd : ∀ p ∈ rows, validDate p.1)
    (hc : ∀ p ∈ rows, ∀ v ∈ p.2, decimalRepOpt v) :
    readRecords (rows.map (fun p => printDate p.1 :: p.2.map cellField)) = .ok rows := by
  induction rows with
  | nil => rfl
  | cons p ps ih =>
    obtain ⟨d, cs⟩ := p
    have hdv := hd (d, cs) (List.mem_cons_self _ _)
    have hcv := hc (d, cs) (List.mem_cons_self _ _)
    have hps := ih (fun x hx => hd x (List.mem_cons_of_mem _ hx))
      (fun x hx => hc x (List.mem_cons_of_mem _ hx))
    show readRecords ((printDate d :: cs.map cellField) ::
      ps.map (fun p => printDate p.1 :: p.2.map cellField)) = .ok ((d, cs) :: ps)
    unfold readRecords
    rw [parseDate_printDate hdv, readCells_map hcv, hps]

/-- C8: round trip — serializing a normalized table to CSV (`to_csv`) and
parsing the CSV back yields the same date index and the same cell values,
with NaN cells (empty fields) preserved as missing; exactly, for every
table whose dates are well-formed and whose values are decimal-representable
(as all values written by this pipeline are). -/
theorem csv_round_trip (nt : NormTable)
    (hd : ∀ p ∈ nt.rows, validDate p.1)
    (hc : ∀ p ∈ nt.rows, ∀ v ∈ p.2, decimalRepOpt v) :
    readCsv (csvRows nt) = .ok nt := by
  have hhdr : readCsv (("Date" :: nt.cols) ::
      nt.rows.map (fun p => printDate p.1 :: p.2.map cellField)) =
      match readRecords (nt.rows.map (fun p => printDate p.1 :: p.2.map cellField)) with
      | .error e => .error e
      | .ok rs => .ok ⟨nt.cols, rs⟩ := rfl
  show readCsv (("Date" :: nt.cols) ::
      nt.rows.map (fun p => printDate p.1 :: p.2.map cellField)) = .ok nt
  rw [hhdr, readRecords_map hd hc]

/-- A normalized table with a decimal value and a NaN cell. -/
def rtTable : NormTable :=
  ⟨["A", "B"], [(⟨2020, 1, 5⟩, [some (Rat.mk' 1 10), none])]⟩

/-- C8 witness: the concrete table round-trips through the CSV layer. -/
theorem csv_round_trip_witness : readCsv (csvRows rtTable) = .ok rtTable :=
  csv_round_trip rtTable (by decide) (by decide)

end VixContango
